import Mathlib

/-!
Verification of the Samsung lab data pipeline (Stager → Decoder → Segmenter →
Feature Extractor) against its specification.  Each Python source function is
shallowly embedded as an executable Lean definition; file contents are lists,
strings are lists of characters, machine floats that only carry exact decimal
arithmetic are modelled as rationals, and fallible operations return `Except`
or `Option`.
-/

namespace Pipeline

/-! ## Segmenter (`utils/Segment_Division.py`, class CSVSegmenter) -/

/-- `target_sizes total_rows ratios` mirrors `CSVSegmenter.split_csv`:
`target_sizes = [(total_rows * r) // total_weight for r in self.ratios]` followed by
`target_sizes[-1] = total_rows - sum(target_sizes[:-1])`. -/
def target_sizes (total_rows : Nat) (ratios : List Nat) : List Nat :=
  let total_weight := ratios.sum
  let ts := ratios.map (fun r => total_rows * r / total_weight)
  ts.dropLast ++ [total_rows - ts.dropLast.sum]

/-- The successive `df[start:end]` slices taken by `split_csv`: each chunk takes the
next `size` rows and advances `start` by `size`. -/
def slices {α : Type} (rows : List α) : List Nat → List (List α)
  | [] => []
  | s :: ss => rows.take s :: slices (rows.drop s) ss

/-- A character-list stand-in for Python strings. -/
abbrev Str := List Char

/-- `CSVSegmenter.split_csv`: raises a `ValueError` (modelled as `.error`) when the
ratio and extension lists disagree in length — before the `try` block, hence before the
CSV is read; inside the `try`, a read failure is caught (no output, normal return),
an empty table returns with no output, and otherwise the table is cut into
`target_sizes` slices written as `<base_name>_<ext>.csv` files. -/
def split_csv (ratios : List Nat) (extensions : List Str) (base_name : Str)
    (input : Except Str (List Str)) : Except Str (List (Str × List Str)) :=
  if ratios.length ≠ extensions.length then
    .error ("Ratios and Extensions must match.".toList)
  else
    match input with
    | .error _ => .ok []
    | .ok rows =>
      if rows.length = 0 then .ok []
      else
        let sizes := target_sizes rows.length ratios
        .ok (List.zipWith
          (fun seg ext => (base_name ++ "_".toList ++ ext ++ ".csv".toList, seg))
          (slices rows sizes) extensions)

/-- `CSVSegmenter.run_segmentation`: walks the CSV files in order, calling `split_csv`
on each; a `ValueError` raised by `split_csv` propagates out of the loop immediately,
while caught per-file data failures contribute no output and processing continues. -/
def run_segmentation (ratios : List Nat) (extensions : List Str) :
    List (Str × Except Str (List Str)) → Except Str (List (Str × List Str))
  | [] => .ok []
  | (base, input) :: files =>
    match split_csv ratios extensions base input with
    | .error e => .error e
    | .ok outs =>
      match run_segmentation ratios extensions files with
      | .error e => .error e
      | .ok rest => .ok (outs ++ rest)

/-! ## Decoder (`utils/Avro_to_CSV.py`, class AvroProcessor)

Python floats in `timestampStart` and `1e6 / samplingFrequency` are modelled as exact
rationals; `round` is rounding to the nearest integer. -/

/-- `round(sig_data["timestampStart"] + i * (1e6 / sig_data["samplingFrequency"]))`. -/
def synth_timestamp (timestampStart samplingFrequency : ℚ) (i : Nat) : ℤ :=
  round (timestampStart + i * (1000000 / samplingFrequency))

/-- The timestamp list comprehension `for i in range(len(values))`. -/
def synth_timestamps (timestampStart samplingFrequency : ℚ) (n : Nat) : List ℤ :=
  (List.range n).map (synth_timestamp timestampStart samplingFrequency)

/-- One line of a per-subject per-signal output CSV: either the
`["unix_timestamp", signal]` header or one `(timestamp, value)` data row. -/
inductive CsvLine : Type
  | header (timeCol signal : Str)
  | data (t : ℤ) (v : ℚ)
deriving DecidableEq

/-- Whether a CSV line is a header row. -/
def CsvLine.isHeader : CsvLine → Bool
  | .header _ _ => true
  | .data _ _ => false

/-- The data rows `zip(timestamps, sig_data["values"])` written for one chunk of one
signal. -/
def chunk_rows (timestampStart samplingFrequency : ℚ) (values : List ℚ) : List CsvLine :=
  List.zipWith CsvLine.data
    (synth_timestamps timestampStart samplingFrequency values.length) values

/-- `AvroProcessor._convert_and_append_file`, restricted to one signal of one chunk and
to the state of its output file (`none` = the file does not exist yet): the file is
opened in append mode, the header is written only when `os.path.isfile` was false, and
the chunk's rows are appended after whatever the file already held. -/
def convert_and_append (signal : Str) (file : Option (List CsvLine))
    (timestampStart samplingFrequency : ℚ) (values : List ℚ) : List CsvLine :=
  let rows := chunk_rows timestampStart samplingFrequency values
  match file with
  | none => CsvLine.header "unix_timestamp".toList signal :: rows
  | some lines => lines ++ rows

/-! ## Stager (`utils/initialize.py`, class ETLInitializer)

The file system is a finite list of `(path, content)` entries; a path is a list of
name components, a folder is the set of entries its path prefixes. -/

/-- A file-system state: the regular files present, as (component path, content). -/
abbrev FS := List (List Str × Str)

/-- `os.path.exists` for a folder path: some entry lies under it. -/
def existsUnder (fs : FS) (d : List Str) : Bool :=
  fs.any (fun e => d.isPrefixOf e.1)

/-- `shutil.rmtree(path)`: every entry under the path is removed. -/
def rmtree (fs : FS) (d : List Str) : FS :=
  fs.filter (fun e => !(d.isPrefixOf e.1))

/-- `shutil.copytree(src, dest)`: every entry `src ++ rel` is duplicated at
`dest ++ rel` (the destination has just been removed, so no merging arises). -/
def copytree (fs : FS) (s d : List Str) : FS :=
  fs ++ (fs.filter (fun e => s.isPrefixOf e.1)).map
    (fun e => (d ++ e.1.drop s.length, e.2))

/-- The per-(date, subject) body of `ETLInitializer.prepare_raw_data`:
`if os.path.exists(dest_path): shutil.rmtree(dest_path)` then
`shutil.copytree(os.path.join(source_dir, folder), dest_path)`. -/
def prepare_raw_one (fs : FS) (s d : List Str) : FS :=
  copytree (if existsUnder fs d then rmtree fs d else fs) s d

/-- One row of `Participants_Record.csv` as read by `ETLInitializer`; the string
fields are already `str(...).strip()`-ed, the session date is an ordinal day. -/
structure MetaRow where
  participantId : Str
  group : Str
  empaticaId : Str
  date : Int
deriving DecidableEq

/-- Python `str.zfill(width)`: pad with leading zeros after an optional sign. -/
def zfill (width : Nat) (s : Str) : Str :=
  match s with
  | [] => List.replicate width '0'
  | c :: rest =>
    if c = '+' ∨ c = '-' then
      c :: (List.replicate (width - s.length) '0' ++ rest)
    else
      List.replicate (width - s.length) '0' ++ s

/-- The canonical subject identifier
`f"TARIS{str(row['Participant ID']).strip().zfill(2)}"`. -/
def canonical_subject_id (participantId : Str) : Str :=
  "TARIS".toList ++ zfill 2 participantId

/-- One iteration of `get_group_mapping`'s row loop on the insertion-ordered dict:
add the group with an empty list if absent, then append the ID if not yet present. -/
def mapping_insert (m : List (Str × List Str)) (g pid : Str) : List (Str × List Str) :=
  match m with
  | [] => [(g, [pid])]
  | (g', l) :: rest =>
    if g' = g then (g', if pid ∈ l then l else l ++ [pid]) :: rest
    else (g', l) :: mapping_insert rest g pid

/-- `ETLInitializer.get_group_mapping`: scans every metadata row (no date filter). -/
def get_group_mapping (metadata : List MetaRow) : List (Str × List Str) :=
  metadata.foldl
    (fun m row => mapping_insert m row.group (canonical_subject_id row.participantId)) []

/-- Reading a Python dict: the value stored under a key, if any. -/
def mapping_lookup (m : List (Str × List Str)) (g : Str) : Option (List Str) :=
  match m with
  | [] => none
  | (g', l) :: rest => if g' = g then some l else mapping_lookup rest g

/-- The group mapping as the pipeline consumes it (`transform.py`):
`initializer.get_group_mapping()` is computed from the full metadata table; the
`START_DATE`/`END_DATE` range is passed only to `prepare_raw_data`. -/
def pipeline_group_mapping (metadata : List MetaRow) (_startDate _endDate : Int) :
    List (Str × List Str) :=
  get_group_mapping metadata

/-- Specification-side rendering of "in first-occurrence order and without
duplicates": keep the first occurrence of each element, drop the rest. -/
def dedupFirst : List Str → List Str
  | [] => []
  | x :: xs => x :: dedupFirst (xs.filter (fun y => y ≠ x))
termination_by l => l.length
decreasing_by
  simp only [List.length_cons]
  exact Nat.lt_succ_of_le (List.length_filter_le _ _)

/-- The append-if-absent step the mapping applies to one subject ID. -/
def insertNew (l : List Str) (x : Str) : List Str :=
  if x ∈ l then l else l ++ [x]

/-- How a sequence of subject IDs for one group lands in the mapping, starting from
the group's current entry (`none` = group not yet seen). -/
def optFold (o : Option (List Str)) (ids : List Str) : Option (List Str) :=
  match o, ids with
  | none, [] => none
  | none, x :: xs => some (List.foldl insertNew (insertNew [] x) xs)
  | some l, ids => some (List.foldl insertNew l ids)

/-! ## Brain-wave feature extractor (`utils/feature_extraction.py`)

The per-window DSP (Butterworth filtering, Welch band power, Higuchi fractal
dimension) computes real numbers the claims do not inspect; a produced feature set is
abstracted to the sample count used and the number of complete 60-second windows
averaged, which is what the control flow branches on. -/

/-- `SAMPLING_RATE = 500  # Hz`. -/
def SAMPLING_RATE : Nat := 500

/-- `WINDOW_SECONDS = 60`. -/
def WINDOW_SECONDS : Nat := 60

/-- The shape of a successful `extract_features_from_file` result. -/
structure EEGExtract where
  usedSamples : Nat
  numWindows : Nat
deriving DecidableEq

/-- One phase-segmented CSV as the extractor observes it: its basename, whether
`pd.read_csv` succeeds, whether both `EEG.F3` and `EEG.F4` columns are present, and
its row count. -/
structure SegFile where
  name : Str
  readOk : Bool
  hasChannels : Bool
  numRows : Nat
deriving DecidableEq

/-- `extract_features_from_file(file_path, phase_name)`: a read failure is caught and
returns `None`; a missing channel returns `None`; the expected duration is 60 s when
`phase_name == 'baseline'` else 240 s; fewer rows than expected fall back to the
available rows (with a warning); zero complete 60-second windows return `None`;
otherwise the windows are processed and the averaged features returned. -/
def extract_features_from_file (f : SegFile) (phase_name : Str) : Option EEGExtract :=
  if f.readOk = false then none
  else if f.hasChannels = false then none
  else
    let duration_seconds := if phase_name = "baseline".toList then 60 else 240
    let total_expected := duration_seconds * SAMPLING_RATE
    let total_samples := if f.numRows < total_expected then f.numRows else total_expected
    let window_samples := WINDOW_SECONDS * SAMPLING_RATE
    let num_windows := total_samples / window_samples
    if num_windows = 0 then none
    else some { usedSamples := total_samples, numWindows := num_windows }

/-- Python `str.lower()`. -/
def toLowerStr (s : Str) : Str := s.map Char.toLower

/-- Python `file_name.replace(".csv", "")`: removes every (non-overlapping,
left-to-right) occurrence, not only a trailing extension. -/
def removeCsvAll : Str → Str
  | '.' :: 'c' :: 's' :: 'v' :: rest => removeCsvAll rest
  | c :: rest => c :: removeCsvAll rest
  | [] => []

/-- `phase_name = file_name.replace(".csv", "").lower()`. -/
def phase_name_of (file_name : Str) : Str := toLowerStr (removeCsvAll file_name)

/-- Python `pat in s` on strings: some suffix of `s` starts with `pat`. -/
def containsSub (pat : Str) : Str → Bool
  | [] => pat.isPrefixOf []
  | c :: rest => pat.isPrefixOf (c :: rest) || containsSub pat rest

/-- Python `s.split(sep)[-1]`: the piece after the last separator. -/
def lastSplit (sep : Char) (s : Str) : Str :=
  s.foldl (fun acc c => if c = sep then [] else acc ++ [c]) []

/-- One row of the accumulated feature table. -/
structure FeatureRow where
  subjectID : Str
  phase : Str
  group : Str
  feats : EEGExtract
deriving DecidableEq

/-- The per-file body of the subject loop in `run_feature_extraction`, parametric in
the extraction function: the `continue` on `"setup" in phase_name` fires before the
extractor is called, and a `None` extraction appends no row. -/
def process_file (extract : SegFile → Str → Option EEGExtract) (group subject_id : Str)
    (f : SegFile) : Option FeatureRow :=
  let phase_name := phase_name_of f.name
  if containsSub "setup".toList phase_name then none
  else
    match extract f phase_name with
    | none => none
    | some feats =>
      some { subjectID := subject_id, phase := lastSplit '_' phase_name,
             group := toLowerStr group, feats := feats }

/-- A subject folder under a group of `phase_segmented` (file discovery order kept
abstract; the code sorts subject folders, which the claims do not depend on). -/
structure SubjectDir where
  subject_id : Str
  files : List SegFile
deriving DecidableEq

/-- One group folder of `phase_segmented`. -/
structure GroupDir where
  group_name : Str
  subjects : List SubjectDir
deriving DecidableEq

/-- `groups = ['Control', 'Raga', 'Breathing']`. -/
def groups_list : List Str := ["Control".toList, "Raga".toList, "Breathing".toList]

/-- The accumulation loop of `run_feature_extraction`: only the three known group
folders are visited, every subject folder's CSVs go through `process_file`, and the
produced rows are appended to `all_features_data` in order. -/
def collect_rows (tree : List GroupDir) : List FeatureRow :=
  ((tree.filter (fun gd => gd.group_name ∈ groups_list)).map (fun gd =>
    (gd.subjects.map (fun sd =>
      sd.files.filterMap
        (process_file extract_features_from_file gd.group_name sd.subject_id))).flatten)).flatten

/-- `run_feature_extraction`: `None` when the `phase_segmented` base path is absent;
`None` with no file written when no feature row was accumulated; otherwise the
accumulated table is written once and its path returned — `some rows` stands for that
written output. -/
def run_feature_extraction (tree : Option (List GroupDir)) : Option (List FeatureRow) :=
  match tree with
  | none => none
  | some groups =>
    let rows := collect_rows groups
    if rows.isEmpty then none else some rows

/-! ## Peripheral-signal feature extractor, electrodermal family -/

/-- A feature value: a NaN marker or a finite number (floating-point magnitudes are
irrelevant to the claims about this family). -/
inductive FVal : Type
  | nan : FVal
  | num : Int → FVal
deriving DecidableEq

/-- Modelled from the spec: the peripheral-signal (electrodermal) extractor is not
under `src/` — only the brain-wave extractor is. Per §4.4, a signal with ≤ 15 samples
"emits an all-NaN vector of fixed length" 6 "rather than attempting decomposition",
and a longer signal is normalized and decomposed into six statistics; the
decomposition and its statistics are abstracted as the argument `decompose`. -/
def eda_extract (decompose : List FVal → List FVal) (samples : List FVal) : List FVal :=
  if samples.length ≤ 15 then List.replicate 6 FVal.nan
  else decompose samples

/-! ### Segmenter lemmas -/

theorem slices_map_length {α : Type} (sizes : List Nat) (rows : List α)
    (h : sizes.sum ≤ rows.length) : (slices rows sizes).map List.length = sizes := by
  induction sizes generalizing rows with
  | nil => rfl
  | cons s ss ih =>
    simp only [List.sum_cons] at h
    have hs : s ≤ rows.length := le_trans (Nat.le_add_right _ _) h
    simp only [slices, List.map_cons, List.length_take, Nat.min_eq_left hs, List.cons.injEq,
      true_and]
    apply ih
    simp only [List.length_drop]
    omega

theorem slices_flatten {α : Type} (sizes : List Nat) (rows : List α) :
    (slices rows sizes).flatten = rows.take sizes.sum := by
  induction sizes generalizing rows with
  | nil => simp [slices]
  | cons s ss ih =>
    simp only [slices, List.flatten_cons, ih, List.sum_cons, List.take_add]

theorem nat_div_add_div_le (x y w : Nat) : x / w + y / w ≤ (x + y) / w := by
  rcases Nat.eq_zero_or_pos w with hw | hw
  · simp [hw]
  · rw [Nat.le_div_iff_mul_le hw, Nat.add_mul]
    exact Nat.add_le_add (Nat.div_mul_le_self x w) (Nat.div_mul_le_self y w)

theorem sum_map_div_le (l : List Nat) (t w : Nat) :
    (l.map (fun r => t * r / w)).sum ≤ t * l.sum / w := by
  induction l with
  | nil => simp
  | cons a l ih =>
    simp only [List.map_cons, List.sum_cons, Nat.mul_add]
    exact le_trans (Nat.add_le_add_left ih _) (nat_div_add_div_le _ _ _)

theorem sum_dropLast_le (l : List Nat) : l.dropLast.sum ≤ l.sum := by
  induction l with
  | nil => simp
  | cons a l ih =>
    cases l with
    | nil => simp
    | cons b t =>
      simp only [List.dropLast_cons₂, List.sum_cons]
      exact Nat.add_le_add_left ih a

/-- The floor sizes of all but the last phase sum to at most the row total. -/
theorem dropLast_floor_sum_le (total_rows : Nat) (ratios : List Nat)
    (hne : ratios ≠ []) (hpos : ∀ r ∈ ratios, 0 < r) :
    ((ratios.map fun r => total_rows * r / ratios.sum).dropLast).sum ≤ total_rows := by
  have hw : 0 < ratios.sum := by
    cases ratios with
    | nil => exact absurd rfl hne
    | cons a l =>
      have ha : 0 < a := hpos a (List.mem_cons_self a l)
      simp only [List.sum_cons]
      omega
  rw [← List.map_dropLast]
  calc ((ratios.dropLast.map fun r => total_rows * r / ratios.sum)).sum
      ≤ total_rows * ratios.dropLast.sum / ratios.sum := sum_map_div_le _ _ _
    _ ≤ total_rows * ratios.sum / ratios.sum := by
        exact Nat.div_le_div_right (Nat.mul_le_mul_left _ (sum_dropLast_le ratios))
    _ = total_rows := Nat.mul_div_cancel total_rows hw

theorem target_sizes_sum (total_rows : Nat) (ratios : List Nat)
    (hne : ratios ≠ []) (hpos : ∀ r ∈ ratios, 0 < r) :
    (target_sizes total_rows ratios).sum = total_rows := by
  have h := dropLast_floor_sum_le total_rows ratios hne hpos
  simp only [target_sizes, List.sum_append, List.sum_cons, List.sum_nil]
  omega

theorem target_sizes_length (total_rows : Nat) (ratios : List Nat) (hne : ratios ≠ []) :
    (target_sizes total_rows ratios).length = ratios.length := by
  have : ratios.length ≠ 0 := fun h => hne (List.eq_nil_of_length_eq_zero h)
  simp only [target_sizes, List.length_append, List.length_dropLast, List.length_map,
    List.length_cons, List.length_nil]
  omega

theorem target_sizes_eq (total_rows : Nat) (ratios : List Nat) :
    target_sizes total_rows ratios =
      (ratios.dropLast.map fun r => total_rows * r / ratios.sum) ++
        [total_rows - ((ratios.dropLast.map fun r => total_rows * r / ratios.sum)).sum] := by
  simp only [target_sizes, List.map_dropLast]

theorem zipWith_left {α β : Type} (l₁ : List α) (l₂ : List β)
    (h : l₁.length ≤ l₂.length) : List.zipWith (fun a _ => a) l₁ l₂ = l₁ := by
  induction l₁ generalizing l₂ with
  | nil => rfl
  | cons a t ih =>
    cases l₂ with
    | nil => simp at h
    | cons b t₂ =>
      simp only [List.zipWith_cons_cons, List.cons.injEq, true_and]
      exact ih t₂ (by simpa using h)

end Pipeline

open Pipeline

/-- C1: for every positive integer ratio list and phase-label list of equal length,
segmenting a non-empty table produces one segment per phase; the segment sizes are
`floor(total_rows * ratio_i / sum ratios)` for every phase but the last, the last
segment absorbs the remainder so the sizes sum exactly to `total_rows`, and the
concatenation of the segments in phase order is the original row sequence. -/
theorem C1_split_csv_segments (ratios : List Nat) (labels : List Str)
    (base : Str) (rows : List Str)
    (hne : ratios ≠ []) (hpos : ∀ r ∈ ratios, 0 < r)
    (hlab : labels.length = ratios.length) (hrows : rows ≠ []) :
    ∃ outs, split_csv ratios labels base (Except.ok rows) = Except.ok outs ∧
      outs.length = labels.length ∧
      outs.map (fun o => o.2.length) =
        (ratios.dropLast.map fun r => rows.length * r / ratios.sum) ++
          [rows.length - ((ratios.dropLast.map fun r => rows.length * r / ratios.sum)).sum] ∧
      (outs.map fun o => o.2.length).sum = rows.length ∧
      (outs.map fun o => o.2).flatten = rows := by
  have hw0 : rows.length ≠ 0 := fun h => hrows (List.eq_nil_of_length_eq_zero h)
  set sizes := target_sizes rows.length ratios with hsizes
  have hsum : sizes.sum = rows.length := target_sizes_sum _ _ hne hpos
  have hslen : (slices rows sizes).map List.length = sizes :=
    slices_map_length sizes rows (le_of_eq hsum)
  have hslices_len : (slices rows sizes).length = sizes.length := by
    calc (slices rows sizes).length
        = ((slices rows sizes).map List.length).length := (List.length_map _ _).symm
      _ = sizes.length := by rw [hslen]
  have hsl : (slices rows sizes).length = labels.length := by
    rw [hslices_len, hsizes, target_sizes_length _ _ hne, hlab]
  set outs := List.zipWith
      (fun seg ext => (base ++ "_".toList ++ ext ++ ".csv".toList, seg))
      (slices rows sizes) labels with houts
  have hmap2 : outs.map (fun o => o.2) = slices rows sizes := by
    rw [houts, List.map_zipWith]
    exact zipWith_left _ _ (le_of_eq hsl)
  have hsplit : split_csv ratios labels base (Except.ok rows) = Except.ok outs := by
    simp only [split_csv]
    rw [if_neg (by omega), if_neg hw0]
  have hm : outs.map (fun o => o.2.length) = sizes := by
    have h1 : outs.map (fun o => o.2.length) = (outs.map fun o => o.2).map List.length := by
      rw [List.map_map]
      rfl
    rw [h1, hmap2, hslen]
  refine ⟨outs, hsplit, ?_, ?_, ?_, ?_⟩
  · rw [houts, List.length_zipWith, hsl, Nat.min_self]
  · rw [hm, hsizes]
    exact target_sizes_eq _ _
  · rw [hm, hsum]
  · rw [hmap2, slices_flatten, hsum, List.take_length]

/-- C1 witness: the spec's concrete example — a 1200-row table with ratios `[1, 5, 5]`
gives segment sizes `[109, 545, 546]`, summing to 1200 and concatenating back. -/
theorem C1_split_csv_segments_witness :
    target_sizes 1200 [1, 5, 5] = [109, 545, 546] ∧
    (∃ outs, split_csv [1, 5, 5]
        ["baseline".toList, "intervention".toList, "test".toList]
        "eda_TARIS05".toList
        (Except.ok (List.replicate 1200 (['r'] : Str))) = Except.ok outs ∧
      outs.length = 3 ∧
      (outs.map fun o => o.2.length).sum = 1200 ∧
      (outs.map fun o => o.2).flatten = List.replicate 1200 (['r'] : Str)) := by
  refine ⟨by decide, ?_⟩
  obtain ⟨outs, h1, h2, h3, h4, h5⟩ :=
    C1_split_csv_segments [1, 5, 5]
      ["baseline".toList, "intervention".toList, "test".toList]
      "eda_TARIS05".toList (List.replicate 1200 (['r'] : Str))
      (by decide) (by decide) (by decide) (by decide)
  exact ⟨outs, h1, by rw [h2]; rfl, by rw [h4, List.length_replicate], h5⟩

/-- C6: when the ratio list and phase-label list differ in length, segmentation
returns the configuration `ValueError` for any non-empty file list — whatever the
per-file read results, so before any row is read — and the error propagates out of
the per-file loop; with matching lengths the loop never propagates an error
(per-file data failures are caught and logged). -/
theorem C6_config_error_propagates (ratios : List Nat) (extensions : List Str)
    (files : List (Str × Except Str (List Str))) :
    (ratios.length ≠ extensions.length → files ≠ [] →
      run_segmentation ratios extensions files =
        Except.error ("Ratios and Extensions must match.".toList)) ∧
    (ratios.length = extensions.length →
      ∃ outs, run_segmentation ratios extensions files = Except.ok outs) := by
  constructor
  · intro hne hfe
    cases files with
    | nil => exact absurd rfl hfe
    | cons f fs =>
      obtain ⟨base, input⟩ := f
      have hsplit : split_csv ratios extensions base input =
          Except.error ("Ratios and Extensions must match.".toList) := by
        simp only [split_csv]
        rw [if_pos hne]
      simp only [run_segmentation, hsplit]
  · intro heq
    induction files with
    | nil => exact ⟨[], rfl⟩
    | cons f fs ih =>
      obtain ⟨base, input⟩ := f
      have hok : ∃ o, split_csv ratios extensions base input = Except.ok o := by
        simp only [split_csv]
        rw [if_neg (by omega)]
        split
        · exact ⟨[], rfl⟩
        · split
          · exact ⟨[], rfl⟩
          · exact ⟨_, rfl⟩
      obtain ⟨o1, ho1⟩ := hok
      obtain ⟨rest, hrest⟩ := ih
      exact ⟨o1 ++ rest, by simp only [run_segmentation, ho1, hrest]⟩

/-- C6 witness: ratios `[1, 5]` against three labels is a configuration error even when
the lone input file cannot be read, and matching lengths never propagate a data error. -/
theorem C6_config_error_propagates_witness :
    run_segmentation [1, 5]
      ["baseline".toList, "intervention".toList, "test".toList]
      [("eda_TARIS05".toList, Except.error "boom".toList)] =
      Except.error ("Ratios and Extensions must match.".toList) ∧
    (∃ outs, run_segmentation [1, 5] ["baseline".toList, "test".toList]
      [("eda_TARIS05".toList, Except.error "boom".toList)] = Except.ok outs) :=
  ⟨(C6_config_error_propagates [1, 5]
      ["baseline".toList, "intervention".toList, "test".toList]
      [("eda_TARIS05".toList, Except.error "boom".toList)]).1 (by decide) (by simp),
   (C6_config_error_propagates [1, 5] ["baseline".toList, "test".toList]
      [("eda_TARIS05".toList, Except.error "boom".toList)]).2 (by decide)⟩

/-- Chunk data rows never contain a header line. -/
theorem countP_isHeader_zipWith_data (ts : List ℤ) (vs : List ℚ) :
    (List.zipWith CsvLine.data ts vs).countP CsvLine.isHeader = 0 := by
  induction ts generalizing vs with
  | nil => rfl
  | cons t ts ih =>
    cases vs with
    | nil => rfl
    | cons v vs =>
      simp only [List.zipWith_cons_cons, List.countP_cons, ih, CsvLine.isHeader]
      rfl

/-- Synthesized timestamps are monotone in the sample index when the sampling
frequency is positive. -/
theorem synth_timestamp_mono (timestampStart samplingFrequency : ℚ)
    (hf : 0 < samplingFrequency) {a b : Nat} (hab : a ≤ b) :
    synth_timestamp timestampStart samplingFrequency a ≤
      synth_timestamp timestampStart samplingFrequency b := by
  unfold synth_timestamp
  rw [round_eq, round_eq]
  apply Int.floor_mono
  have hc : (0 : ℚ) ≤ 1000000 / samplingFrequency := by positivity
  have hab' : (a : ℚ) ≤ b := by exact_mod_cast hab
  have hm := mul_le_mul_of_nonneg_right hab' hc
  linarith

/-- C4: for every decoded chunk, the synthesized timestamp at index `i` equals
`round(start + i * (1e6 / samplingFrequency))`, and the timestamp sequence of the
chunk is monotonically non-decreasing. -/
theorem C4_synth_timestamps_formula_mono (timestampStart samplingFrequency : ℚ)
    (n : Nat) (hf : 0 < samplingFrequency) :
    (∀ i, i < n → (synth_timestamps timestampStart samplingFrequency n)[i]? =
        some (round (timestampStart + (i : ℚ) * (1000000 / samplingFrequency)))) ∧
    List.Pairwise (· ≤ ·) (synth_timestamps timestampStart samplingFrequency n) := by
  constructor
  · intro i hi
    simp only [synth_timestamps, List.getElem?_map, List.getElem?_range hi,
      Option.map_some', synth_timestamp]
  · unfold synth_timestamps
    refine List.Pairwise.map _ ?_ (List.pairwise_lt_range n)
    intro a b hab
    exact synth_timestamp_mono _ _ hf hab.le

/-- C4 witness: a chunk starting at 0 sampled at 64 Hz has timestamps
`[0, 15625, 31250]`, matching the rounding formula and non-decreasing. -/
theorem C4_synth_timestamps_formula_mono_witness :
    (0 : ℚ) < 64 ∧
    synth_timestamps 0 64 3 = [0, 15625, 31250] ∧
    ((∀ i : Nat, i < 3 → (synth_timestamps 0 64 3)[i]? =
        some (round ((0 : ℚ) + (i : ℚ) * (1000000 / 64)))) ∧
      List.Pairwise (· ≤ ·) (synth_timestamps 0 64 3)) :=
  ⟨by norm_num,
   by norm_num [synth_timestamps, synth_timestamp, List.range_succ, round_eq],
   C4_synth_timestamps_formula_mono 0 64 3 (by norm_num)⟩

/-- C2: appending a second chunk to a per-signal file that already holds a first chunk
keeps the header (written exactly once, when the file did not exist) at the top, leaves
the first chunk's rows unchanged in place, and puts the second chunk's rows immediately
after them — for all start timestamps and frequencies of the two chunks. -/
theorem C2_convert_and_append_two_chunks (signal : Str) (s1 f1 s2 f2 : ℚ)
    (v1 v2 : List ℚ) :
    convert_and_append signal (some (convert_and_append signal none s1 f1 v1)) s2 f2 v2 =
      CsvLine.header "unix_timestamp".toList signal ::
        (chunk_rows s1 f1 v1 ++ chunk_rows s2 f2 v2) ∧
    (convert_and_append signal (some (convert_and_append signal none s1 f1 v1))
        s2 f2 v2).countP CsvLine.isHeader = 1 ∧
    (convert_and_append signal (some (convert_and_append signal none s1 f1 v1))
          s2 f2 v2).take (convert_and_append signal none s1 f1 v1).length =
      convert_and_append signal none s1 f1 v1 := by
  have h1 : convert_and_append signal none s1 f1 v1 =
      CsvLine.header "unix_timestamp".toList signal :: chunk_rows s1 f1 v1 := rfl
  have h2 : convert_and_append signal (some (convert_and_append signal none s1 f1 v1))
        s2 f2 v2 =
      convert_and_append signal none s1 f1 v1 ++ chunk_rows s2 f2 v2 := rfl
  refine ⟨?_, ?_, ?_⟩
  · rw [h2, h1, List.cons_append]
  · rw [h2, List.countP_append, h1, List.countP_cons]
    simp only [chunk_rows, countP_isHeader_zipWith_data, CsvLine.isHeader]
    rfl
  · rw [h2]
    exact List.take_left _ _

/-- C3: for every electrodermal input with at most 15 samples, the extractor emits the
fixed-length-6 all-NaN vector without invoking the decomposition, and for 16 or more
samples it hands the signal to the full processing. -/
theorem C3_eda_insufficient_guard (decompose : List FVal → List FVal)
    (samples : List FVal) :
    (samples.length ≤ 15 →
      eda_extract decompose samples = List.replicate 6 FVal.nan ∧
      (eda_extract decompose samples).length = 6 ∧
      ∀ v ∈ eda_extract decompose samples, v = FVal.nan) ∧
    (16 ≤ samples.length → eda_extract decompose samples = decompose samples) := by
  constructor
  · intro h
    have he : eda_extract decompose samples = List.replicate 6 FVal.nan := by
      simp [eda_extract, h]
    refine ⟨he, by rw [he]; rfl, ?_⟩
    rw [he]
    intro v hv
    exact (List.eq_of_mem_replicate hv)
  · intro h
    simp [eda_extract]
    omega

/-- C3 witness: 15 NaN samples give the all-NaN 6-vector however the decomposition
would behave; 16 samples are passed to the decomposition. -/
theorem C3_eda_insufficient_guard_witness :
    ((List.replicate 15 FVal.nan).length ≤ 15 ∧
      eda_extract (fun _ => []) (List.replicate 15 FVal.nan) =
        List.replicate 6 FVal.nan) ∧
    (16 ≤ (List.replicate 16 FVal.nan).length ∧
      eda_extract (fun _ => []) (List.replicate 16 FVal.nan) = []) :=
  ⟨⟨by decide,
    ((C3_eda_insufficient_guard (fun _ => []) (List.replicate 15 FVal.nan)).1
      (by decide)).1⟩,
   ⟨by decide,
    (C3_eda_insufficient_guard (fun _ => []) (List.replicate 16 FVal.nan)).2
      (by decide)⟩⟩

/-- C7: the extractor returns the null result and writes nothing when the input tree
is absent or when no feature row was accumulated from any file; an output file (with
its contents returned) exists only when at least one row was accumulated. -/
theorem C7_empty_extraction_null (tree : List GroupDir) (t : List FeatureRow) :
    run_feature_extraction none = none ∧
    (collect_rows tree = [] → run_feature_extraction (some tree) = none) ∧
    (run_feature_extraction (some tree) = some t → t ≠ [] ∧ t = collect_rows tree) := by
  refine ⟨rfl, ?_, ?_⟩
  · intro h
    simp [run_feature_extraction, h]
  · intro h
    by_cases he : (collect_rows tree).isEmpty
    · have hnone : run_feature_extraction (some tree) = none := by
        simp only [run_feature_extraction, he, if_true]
      rw [hnone] at h
      exact Option.noConfusion h
    · have hsome : run_feature_extraction (some tree) = some (collect_rows tree) := by
        simp only [run_feature_extraction, he]
        rfl
      rw [hsome] at h
      have ht := Option.some.inj h
      refine ⟨?_, ht.symm⟩
      intro hnil
      rw [← ht] at hnil
      exact he (by simp [hnil])

/-- C7 witness: an empty tree accumulates nothing and yields the null result; a tree
with one processable EEG file yields a written non-empty table equal to what was
accumulated. -/
theorem C7_empty_extraction_null_witness :
    (collect_rows [] = [] ∧ run_feature_extraction (some []) = none ∧
      run_feature_extraction none = none) ∧
    (([⟨"TARIS05".toList, "baseline".toList, "control".toList, ⟨30000, 1⟩⟩] :
        List FeatureRow) ≠ [] ∧
      ([⟨"TARIS05".toList, "baseline".toList, "control".toList, ⟨30000, 1⟩⟩] :
        List FeatureRow) =
        collect_rows [⟨"Control".toList,
          [⟨"TARIS05".toList, [⟨"TARIS05_baseline.csv".toList, true, true, 30000⟩]⟩]⟩]) :=
  ⟨⟨rfl, (C7_empty_extraction_null [] []).2.1 rfl, (C7_empty_extraction_null [] []).1⟩,
   (C7_empty_extraction_null
      [⟨"Control".toList,
        [⟨"TARIS05".toList, [⟨"TARIS05_baseline.csv".toList, true, true, 30000⟩]⟩]⟩]
      [⟨"TARIS05".toList, "baseline".toList, "control".toList, ⟨30000, 1⟩⟩]).2.2
     (by decide)⟩

/-- C8: a brain-wave phase file with both channels and fewer rows than the expected
duration for its phase still yields a feature result computed from the available rows,
provided at least one complete 60-second window fits; with zero complete windows the
file yields nothing at all. -/
theorem C8_short_eeg_file (f : SegFile) (phase_name : Str)
    (hr : f.readOk = true) (hc : f.hasChannels = true) :
    (WINDOW_SECONDS * SAMPLING_RATE ≤ f.numRows →
      f.numRows < (if phase_name = "baseline".toList then 60 else 240) * SAMPLING_RATE →
      extract_features_from_file f phase_name =
        some ⟨f.numRows, f.numRows / (WINDOW_SECONDS * SAMPLING_RATE)⟩) ∧
    (f.numRows < WINDOW_SECONDS * SAMPLING_RATE →
      extract_features_from_file f phase_name = none) := by
  have hws : WINDOW_SECONDS * SAMPLING_RATE = 30000 := rfl
  have hexp : 30000 ≤ (if phase_name = "baseline".toList then 60 else 240) * SAMPLING_RATE := by
    split <;> simp [SAMPLING_RATE]
  constructor
  · intro hw hlt
    simp only [extract_features_from_file, hr, hc]
    rw [if_neg (by simp), if_neg (by simp), if_pos hlt, if_neg]
    rw [hws] at hw
    have : ¬ (f.numRows / 30000 = 0) := by
      rw [Nat.div_eq_zero_iff (by omega)]
      omega
    simpa [WINDOW_SECONDS, SAMPLING_RATE] using this
  · intro hz
    have h30 : f.numRows < 30000 := by
      simpa [WINDOW_SECONDS, SAMPLING_RATE] using hz
    simp only [extract_features_from_file, hr, hc]
    rw [if_neg (by simp), if_neg (by simp), if_pos (lt_of_lt_of_le h30 hexp), if_pos]
    exact (Nat.div_eq_zero_iff (by norm_num [WINDOW_SECONDS, SAMPLING_RATE])).2 hz

/-- C8 witness: with both channels present, 35000 rows against an expected 120000
still produce a result using 35000 rows (one complete window); 29999 rows produce
nothing. -/
theorem C8_short_eeg_file_witness :
    extract_features_from_file
        ⟨"eda_TARIS05_test.csv".toList, true, true, 35000⟩
        "eda_taris05_test".toList = some ⟨35000, 1⟩ ∧
    extract_features_from_file
        ⟨"eda_TARIS05_test.csv".toList, true, true, 29999⟩
        "eda_taris05_test".toList = none :=
  ⟨(C8_short_eeg_file ⟨"eda_TARIS05_test.csv".toList, true, true, 35000⟩
      "eda_taris05_test".toList rfl rfl).1 (by decide) (by decide),
   (C8_short_eeg_file ⟨"eda_TARIS05_test.csv".toList, true, true, 29999⟩
      "eda_taris05_test".toList rfl rfl).2 (by decide)⟩

/-- C10: a phase-segmented file whose computed phase name (lowercased basename with
every `.csv` removed) contains `setup` is skipped before any extraction is attempted —
whatever the extractor would do — contributing no row, while the files around it are
processed as if it were absent. -/
theorem C10_setup_files_skipped (extract : SegFile → Str → Option EEGExtract)
    (group subject_id : Str) (f : SegFile) (pre post : List SegFile)
    (h : containsSub "setup".toList (phase_name_of f.name) = true) :
    process_file extract group subject_id f = none ∧
    (pre ++ f :: post).filterMap (process_file extract group subject_id) =
      pre.filterMap (process_file extract group subject_id) ++
        post.filterMap (process_file extract group subject_id) := by
  have h1 : process_file extract group subject_id f = none := by
    simp only [process_file]
    rw [if_pos h]
  refine ⟨h1, ?_⟩
  rw [List.filterMap_append, List.filterMap_cons, h1]

/-- C10 witness: `TARIS05_Setup.csv` is skipped (even by an extractor that always
succeeds) and its neighbours are still processed. -/
theorem C10_setup_files_skipped_witness :
    containsSub "setup".toList (phase_name_of "TARIS05_Setup.csv".toList) = true ∧
    process_file (fun _ _ => some ⟨1, 1⟩) "Control".toList "TARIS05".toList
        ⟨"TARIS05_Setup.csv".toList, true, true, 0⟩ = none ∧
    ([⟨"TARIS05_baseline.csv".toList, true, true, 30000⟩,
      (⟨"TARIS05_Setup.csv".toList, true, true, 0⟩ : SegFile),
      ⟨"TARIS05_test.csv".toList, true, true, 30000⟩] : List SegFile).filterMap
        (process_file (fun _ _ => some ⟨1, 1⟩) "Control".toList "TARIS05".toList) =
      ([⟨"TARIS05_baseline.csv".toList, true, true, 30000⟩] :
          List SegFile).filterMap
          (process_file (fun _ _ => some ⟨1, 1⟩) "Control".toList "TARIS05".toList) ++
        ([⟨"TARIS05_test.csv".toList, true, true, 30000⟩] : List SegFile).filterMap
          (process_file (fun _ _ => some ⟨1, 1⟩) "Control".toList "TARIS05".toList) := by
  refine ⟨by decide, ?_, ?_⟩
  · exact (C10_setup_files_skipped (fun _ _ => some ⟨1, 1⟩) "Control".toList
      "TARIS05".toList ⟨"TARIS05_Setup.csv".toList, true, true, 0⟩ [] [] (by decide)).1
  · exact (C10_setup_files_skipped (fun _ _ => some ⟨1, 1⟩) "Control".toList
      "TARIS05".toList ⟨"TARIS05_Setup.csv".toList, true, true, 0⟩
      [⟨"TARIS05_baseline.csv".toList, true, true, 30000⟩]
      [⟨"TARIS05_test.csv".toList, true, true, 30000⟩] (by decide)).2

/-- Two incomparable folders have no common descendant: a path under `s` is not
under `d`. -/
theorem incomp_no_common_extension (s d : List Str) (hsd : s.isPrefixOf d = false)
    (hds : d.isPrefixOf s = false) (p : List Str) (hs : s.isPrefixOf p = true) :
    d.isPrefixOf p = false := by
  cases hdp : d.isPrefixOf p with
  | false => rfl
  | true =>
    exfalso
    have h1 := List.isPrefixOf_iff_prefix.1 hs
    have h2 := List.isPrefixOf_iff_prefix.1 hdp
    have hcomp := List.prefix_or_prefix_of_prefix h1 h2
    cases hcomp with
    | inl h =>
      rw [← List.isPrefixOf_iff_prefix] at h
      rw [h] at hsd
      exact Bool.noConfusion hsd
    | inr h =>
      rw [← List.isPrefixOf_iff_prefix] at h
      rw [h] at hds
      exact Bool.noConfusion hds

/-- Removing a folder twice is the same as removing it once. -/
theorem rmtree_rmtree (fs : FS) (d : List Str) :
    rmtree (rmtree fs d) d = rmtree fs d := by
  unfold rmtree
  rw [List.filter_filter]
  exact List.filter_congr (fun e _ => by rw [Bool.and_self])

/-- Removing an absent folder changes nothing. -/
theorem rmtree_of_no_dest (fs : FS) (d : List Str) (h : existsUnder fs d = false) :
    rmtree fs d = fs := by
  unfold rmtree
  apply List.filter_eq_self.2
  intro e he
  have hne := List.any_eq_false.1 h e he
  cases hb : d.isPrefixOf e.1 with
  | false => rfl
  | true => exact absurd hb hne

/-- Removing the destination does not disturb the source subtree. -/
theorem filter_src_rmtree (fs : FS) (s d : List Str) (hsd : s.isPrefixOf d = false)
    (hds : d.isPrefixOf s = false) :
    (rmtree fs d).filter (fun e => s.isPrefixOf e.1) =
      fs.filter (fun e => s.isPrefixOf e.1) := by
  unfold rmtree
  rw [List.filter_filter]
  apply List.filter_congr
  intro e _
  cases hs : s.isPrefixOf e.1 with
  | false => simp [hs]
  | true =>
    have hd := incomp_no_common_extension s d hsd hds e.1 hs
    simp [hs, hd]

/-- Every entry copied into the destination lies under the destination. -/
theorem copies_under_dest (fs : FS) (s d : List Str) :
    ∀ e ∈ (fs.filter (fun e => s.isPrefixOf e.1)).map
        (fun e => (d ++ e.1.drop s.length, e.2)),
      d.isPrefixOf e.1 = true := by
  intro e he
  obtain ⟨a, _, rfl⟩ := List.mem_map.1 he
  exact List.isPrefixOf_iff_prefix.2 (List.prefix_append _ _)

/-- Normal form of the per-(date, subject) Stager step when source and destination
are incomparable folders: everything outside the destination survives, and the
destination holds exactly a copy of the source subtree. -/
theorem prepare_raw_one_eq (fs : FS) (s d : List Str) (hsd : s.isPrefixOf d = false)
    (hds : d.isPrefixOf s = false) :
    prepare_raw_one fs s d =
      rmtree fs d ++ (fs.filter (fun e => s.isPrefixOf e.1)).map
        (fun e => (d ++ e.1.drop s.length, e.2)) := by
  unfold prepare_raw_one copytree
  by_cases hex : existsUnder fs d
  · rw [if_pos hex, filter_src_rmtree fs s d hsd hds]
  · rw [if_neg hex, rmtree_of_no_dest fs d (by simpa using hex)]

/-- C5: with source and destination folders incomparable, the Stager's per-(date,
subject) step is destructive — the end state depends only on the file system outside
the destination, so any previous destination contents are discarded — and therefore
idempotent: a second run with unchanged source data reproduces the same end state. -/
theorem C5_prepare_raw_idempotent (s d : List Str)
    (hsd : s.isPrefixOf d = false) (hds : d.isPrefixOf s = false) :
    (∀ fs g : FS, rmtree fs d = rmtree g d →
      prepare_raw_one fs s d = prepare_raw_one g s d) ∧
    (∀ fs : FS,
      prepare_raw_one (prepare_raw_one fs s d) s d = prepare_raw_one fs s d) := by
  have hsrc : ∀ fs g : FS, rmtree fs d = rmtree g d →
      fs.filter (fun e => s.isPrefixOf e.1) = g.filter (fun e => s.isPrefixOf e.1) := by
    intro fs g hfg
    rw [← filter_src_rmtree fs s d hsd hds, ← filter_src_rmtree g s d hsd hds, hfg]
  constructor
  · intro fs g hfg
    rw [prepare_raw_one_eq fs s d hsd hds, prepare_raw_one_eq g s d hsd hds, hfg,
      hsrc fs g hfg]
  · intro fs
    rw [prepare_raw_one_eq fs s d hsd hds,
      prepare_raw_one_eq (rmtree fs d ++ (fs.filter (fun e => s.isPrefixOf e.1)).map
        (fun e => (d ++ e.1.drop s.length, e.2))) s d hsd hds]
    have hCk : rmtree ((fs.filter (fun e => s.isPrefixOf e.1)).map
        (fun e => (d ++ e.1.drop s.length, e.2))) d = [] := by
      unfold rmtree
      apply List.filter_eq_nil_iff.2
      intro e he
      have hd := copies_under_dest fs s d e he
      simp [hd]
    have hCs : ((fs.filter (fun e => s.isPrefixOf e.1)).map
        (fun e => (d ++ e.1.drop s.length, e.2))).filter
          (fun e => s.isPrefixOf e.1) = [] := by
      apply List.filter_eq_nil_iff.2
      intro e he
      have hd := copies_under_dest fs s d e he
      have hs := incomp_no_common_extension d s hds hsd e.1 hd
      simp [hs]
    have h1 : rmtree (rmtree fs d ++ (fs.filter (fun e => s.isPrefixOf e.1)).map
        (fun e => (d ++ e.1.drop s.length, e.2))) d = rmtree fs d := by
      show List.filter _ (_ ++ _) = _
      rw [List.filter_append]
      show rmtree (rmtree fs d) d ++ rmtree _ d = _
      rw [rmtree_rmtree, hCk, List.append_nil]
    have h2 : (rmtree fs d ++ (fs.filter (fun e => s.isPrefixOf e.1)).map
        (fun e => (d ++ e.1.drop s.length, e.2))).filter (fun e => s.isPrefixOf e.1) =
        fs.filter (fun e => s.isPrefixOf e.1) := by
      rw [List.filter_append, filter_src_rmtree fs s d hsd hds, hCs, List.append_nil]
    rw [h1, h2]

/-- C5 witness: staging `unproc/TARIS07_ABC` onto `raw/TARIS05` discards the stale
destination file, copies the source, is insensitive to what the destination held
before, and running it twice equals running it once. -/
theorem C5_prepare_raw_idempotent_witness :
    (["unproc".toList, "TARIS07_ABC".toList] : List Str).isPrefixOf
        ["raw".toList, "TARIS05".toList] = false ∧
    prepare_raw_one
        (prepare_raw_one
          [(["unproc".toList, "TARIS07_ABC".toList, "f.avro".toList], "x".toList),
           (["raw".toList, "TARIS05".toList, "stale".toList], "y".toList)]
          ["unproc".toList, "TARIS07_ABC".toList] ["raw".toList, "TARIS05".toList])
        ["unproc".toList, "TARIS07_ABC".toList] ["raw".toList, "TARIS05".toList] =
      prepare_raw_one
        [(["unproc".toList, "TARIS07_ABC".toList, "f.avro".toList], "x".toList),
         (["raw".toList, "TARIS05".toList, "stale".toList], "y".toList)]
        ["unproc".toList, "TARIS07_ABC".toList] ["raw".toList, "TARIS05".toList] ∧
    prepare_raw_one
        [(["unproc".toList, "TARIS07_ABC".toList, "f.avro".toList], "x".toList),
         (["raw".toList, "TARIS05".toList, "stale".toList], "y".toList)]
        ["unproc".toList, "TARIS07_ABC".toList] ["raw".toList, "TARIS05".toList] =
      prepare_raw_one
        [(["unproc".toList, "TARIS07_ABC".toList, "f.avro".toList], "x".toList)]
        ["unproc".toList, "TARIS07_ABC".toList] ["raw".toList, "TARIS05".toList] ∧
    prepare_raw_one
        [(["unproc".toList, "TARIS07_ABC".toList, "f.avro".toList], "x".toList),
         (["raw".toList, "TARIS05".toList, "stale".toList], "y".toList)]
        ["unproc".toList, "TARIS07_ABC".toList] ["raw".toList, "TARIS05".toList] =
      [(["unproc".toList, "TARIS07_ABC".toList, "f.avro".toList], "x".toList),
       (["raw".toList, "TARIS05".toList, "f.avro".toList], "x".toList)] :=
  ⟨by decide,
   (C5_prepare_raw_idempotent ["unproc".toList, "TARIS07_ABC".toList]
      ["raw".toList, "TARIS05".toList] (by decide) (by decide)).2
     [(["unproc".toList, "TARIS07_ABC".toList, "f.avro".toList], "x".toList),
      (["raw".toList, "TARIS05".toList, "stale".toList], "y".toList)],
   (C5_prepare_raw_idempotent ["unproc".toList, "TARIS07_ABC".toList]
      ["raw".toList, "TARIS05".toList] (by decide) (by decide)).1
     [(["unproc".toList, "TARIS07_ABC".toList, "f.avro".toList], "x".toList),
      (["raw".toList, "TARIS05".toList, "stale".toList], "y".toList)]
     [(["unproc".toList, "TARIS07_ABC".toList, "f.avro".toList], "x".toList)]
     (by decide),
   by decide⟩

/-- No IDs for a group leave its mapping entry untouched. -/
theorem optFold_nil (o : Option (List Str)) : optFold o [] = o := by
  cases o <;> rfl

/-- Inserting an ID for a group updates exactly that group's entry by
append-if-absent (an absent group starts from the empty list). -/
theorem mapping_lookup_insert_self (m : List (Str × List Str)) (g pid : Str) :
    mapping_lookup (mapping_insert m g pid) g =
      some (insertNew ((mapping_lookup m g).getD []) pid) := by
  induction m with
  | nil => simp [mapping_insert, mapping_lookup, insertNew]
  | cons e rest ih =>
    obtain ⟨g', l⟩ := e
    by_cases hg : g' = g
    · subst hg
      simp [mapping_insert, mapping_lookup, insertNew]
    · simp [mapping_insert, mapping_lookup, hg, ih]

/-- Inserting an ID for one group leaves every other group's entry unchanged. -/
theorem mapping_lookup_insert_other (m : List (Str × List Str)) (g' g pid : Str)
    (hne : g' ≠ g) :
    mapping_lookup (mapping_insert m g' pid) g = mapping_lookup m g := by
  induction m with
  | nil => simp [mapping_insert, mapping_lookup, hne]
  | cons e rest ih =>
    obtain ⟨g'', l⟩ := e
    by_cases hg : g'' = g'
    · subst hg
      simp [mapping_insert, mapping_lookup, hne]
    · simp [mapping_insert, mapping_lookup, hg, ih]

/-- Loop invariant of `get_group_mapping`: after folding any row list onto any
accumulated dict, a group's entry is its prior entry extended by append-if-absent
with the canonical IDs of the rows bearing that group, in row order. -/
theorem get_group_mapping_invariant (rows : List MetaRow)
    (m : List (Str × List Str)) (g : Str) :
    mapping_lookup (rows.foldl (fun m row =>
        mapping_insert m row.group (canonical_subject_id row.participantId)) m) g =
      optFold (mapping_lookup m g)
        ((rows.filter (fun r => r.group = g)).map
          (fun r => canonical_subject_id r.participantId)) := by
  induction rows generalizing m with
  | nil => simp [optFold_nil]
  | cons r rest ih =>
    simp only [List.foldl_cons]
    rw [ih]
    by_cases hg : r.group = g
    · subst hg
      rw [mapping_lookup_insert_self]
      rw [List.filter_cons_of_pos (by simp)]
      cases hmg : mapping_lookup m r.group with
      | none => simp [optFold]
      | some l => simp [optFold]
    · rw [mapping_lookup_insert_other m r.group g _ hg]
      rw [List.filter_cons_of_neg (by simp [hg])]

/-- Folding append-if-absent over a list appends, after the accumulator, the first
occurrences of the elements not already present. -/
theorem foldl_insertNew_eq_dedupFirst (ids : List Str) (acc : List Str) :
    List.foldl insertNew acc ids =
      acc ++ dedupFirst (ids.filter (fun x => ¬ x ∈ acc)) := by
  induction ids generalizing acc with
  | nil => simp [dedupFirst]
  | cons x xs ih =>
    simp only [List.foldl_cons]
    rw [ih]
    by_cases hx : x ∈ acc
    · have h1 : insertNew acc x = acc := by simp [insertNew, hx]
      have h2 : (x :: xs).filter (fun y => ¬ y ∈ acc) =
          xs.filter (fun y => ¬ y ∈ acc) := by
        rw [List.filter_cons_of_neg (by simp [hx])]
      rw [h1, h2]
    · have h1 : insertNew acc x = acc ++ [x] := by simp [insertNew, hx]
      have h2 : (x :: xs).filter (fun y => ¬ y ∈ acc) =
          x :: xs.filter (fun y => ¬ y ∈ acc) := by
        rw [List.filter_cons_of_pos (by simp [hx])]
      rw [h1, h2, dedupFirst]
      have h3 : xs.filter (fun y => ¬ y ∈ acc ++ [x]) =
          (xs.filter (fun y => ¬ y ∈ acc)).filter (fun y => y ≠ x) := by
        rw [List.filter_filter]
        apply List.filter_congr
        intro a _
        have hiff : (¬ a ∈ acc ++ [x]) ↔ ((a ≠ x) ∧ ¬ a ∈ acc) := by
          simp only [List.mem_append, List.mem_singleton, not_or]
          tauto
        calc decide (¬ a ∈ acc ++ [x]) = decide ((a ≠ x) ∧ ¬ a ∈ acc) :=
              decide_eq_decide.2 hiff
          _ = (decide (a ≠ x) && decide (¬ a ∈ acc)) := Bool.decide_and _ _
      rw [h3]
      simp [List.append_assoc]

/-- C9: the group mapping is computed before (and independent of) any date range
passed to `prepare_raw_data`, and it sends each group label occurring in the metadata
to the canonical `TARIS<zero-padded ID>` identifiers of all rows bearing that group,
in first-occurrence order without duplicates (groups without rows are absent). -/
theorem C9_group_mapping_canonical (metadata : List MetaRow) (g : Str)
    (r1s r1e r2s r2e : Int) :
    pipeline_group_mapping metadata r1s r1e = pipeline_group_mapping metadata r2s r2e ∧
    mapping_lookup (get_group_mapping metadata) g =
      (if metadata.filter (fun r => r.group = g) = [] then none
       else some (dedupFirst ((metadata.filter (fun r => r.group = g)).map
         (fun r => canonical_subject_id r.participantId)))) := by
  refine ⟨rfl, ?_⟩
  unfold get_group_mapping
  rw [get_group_mapping_invariant metadata [] g]
  cases hids : (metadata.filter (fun r => r.group = g)).map
      (fun r => canonical_subject_id r.participantId) with
  | nil =>
    rw [if_pos (List.map_eq_nil_iff.1 hids)]
    rfl
  | cons x xs =>
    rw [if_neg (by
      intro hf
      rw [hf] at hids
      exact List.noConfusion hids)]
    show some (List.foldl insertNew (insertNew [] x) xs) = _
    have hx : insertNew [] x = [x] := rfl
    rw [hx, foldl_insertNew_eq_dedupFirst xs [x]]
    have hflt : xs.filter (fun y => ¬ y ∈ [x]) = xs.filter (fun y => y ≠ x) :=
      List.filter_congr (fun a _ => decide_eq_decide.2 (by simp))
    rw [hflt, dedupFirst]
    rfl
